import Mathlib

/-!
Verification of the SLAM (Simple Logger / API Monitor) metrics aggregation
core, shallowly embedded from `src/index.js` (and its earlier revision in
`src/unnamed/part_000`).

Modelling conventions:
* JavaScript numbers that hold durations and averages are modelled as `ℚ`
  (the spec's "within floating-point tolerance" becomes exact rational
  arithmetic); counts are `Nat`; timestamps and time segments are `Int`.
* JavaScript objects used as maps (`global.slamCounts`, `statusCodes`,
  `segments`) are modelled as association lists with the JS update
  discipline: an existing key is overwritten in place, a new key is
  appended at the end.
* Wall-clock reads (`+ new Date()`, the zero-argument `tsToSegment()`)
  become explicit `nowTs : Int` parameters.
-/

namespace Slam

/-- Javascript timestamp to compressed segment (`tsToSegment`,
`src/index.js` lines 11-14).  The source reads
`if (!ts) ts = + new Date(); return Math.floor(ts / (1000 * 60 * 5))`.
`ts` is optional (`none` models a call with no argument); because `!ts`
is also true for the number `0`, a zero timestamp falls back to the
current wall clock `nowTs` exactly like an omitted argument.
`Math.floor` of an integer quotient is floor division `Int.fdiv`. -/
def tsToSegment (nowTs : Int) (ts : Option Int) : Int :=
  match ts with
  | none => Int.fdiv nowTs (1000 * 60 * 5)
  | some t => if t = 0 then Int.fdiv nowTs (1000 * 60 * 5) else Int.fdiv t (1000 * 60 * 5)

/-- Compressed segment to Javascript timestamp (`segmentToTs`,
`src/index.js` lines 17-19): `return seg * (1000 * 60 * 5)`. -/
def segmentToTs (seg : Int) : Int :=
  seg * (1000 * 60 * 5)

/-! ### JavaScript values carried by `req.params` / `req.query` / `req.body`

These model the value domain that the middleware's `logInfo` /
`typeOf` / `fixValueType` helpers (`src/index.js` lines 113-143)
inspect.  `vnum` carries non-NaN numbers; NaN has its own constructor.
The modelled string-to-number coercion (`toNumberOfString`) covers
signed decimal literals with an optional fraction part, which is the
domain produced by URL parameters and JSON bodies; hexadecimal and
exponent literals are outside the model. -/

inductive JSVal where
  | vstr (s : String)
  | vnum (q : ℚ)
  | vnan
  | vbool (b : Bool)
  | vnull
  | vundef
  | varr (elems : List JSVal)
  | vobj (fields : List (String × JSVal))

/-- Value of a run of decimal digit characters. -/
def digitsToNat (cs : List Char) : Nat :=
  cs.foldl (fun a c => a * 10 + (c.toNat - 48)) 0

/-- Parse an unsigned decimal literal (digits, optionally with a single
decimal point; at least one digit overall), as JavaScript `Number(...)`
does on such strings.  `none` models NaN. -/
def parseUnsigned (cs : List Char) : Option ℚ :=
  let ip := cs.takeWhile (fun c => c.isDigit)
  let rest := cs.dropWhile (fun c => c.isDigit)
  match rest with
  | [] => if ip.isEmpty then none else some (digitsToNat ip)
  | '.' :: fp =>
      if fp.all (fun c => c.isDigit) && !(ip.isEmpty && fp.isEmpty) then
        some ((digitsToNat ip : ℚ) + (digitsToNat fp : ℚ) / (10 : ℚ) ^ fp.length)
      else none
  | _ => none

/-- Strip leading and trailing whitespace from a character list, as
`Number(string)` does before parsing. -/
def trimChars (cs : List Char) : List Char :=
  ((cs.dropWhile Char.isWhitespace).reverse.dropWhile Char.isWhitespace).reverse

/-- JavaScript `Number(string)` on the modelled domain: surrounding
whitespace is trimmed, the empty string converts to `0`, otherwise a
signed decimal literal is parsed; anything else is NaN (`none`). -/
def toNumberOfString (s : String) : Option ℚ :=
  match trimChars s.toList with
  | [] => some 0
  | '-' :: rest => (parseUnsigned rest).map (fun q => -q)
  | '+' :: rest => parseUnsigned rest
  | cs => parseUnsigned cs

/-- Decimal digits of the fractional part of a nonnegative rational,
with fuel bounding the length (JavaScript prints at most 17 significant
digits; query/body values are finite decimals, for which this is exact). -/
def fracDigits : Nat → ℚ → List Nat
  | 0, _ => []
  | fuel + 1, q =>
      if q = 0 then []
      else
        let q10 := q * 10
        let d := (⌊q10⌋).toNat
        d :: fracDigits fuel (q10 - d)

/-- JavaScript number-to-string on the modelled (finite decimal) domain. -/
def numToStr (q : ℚ) : String :=
  let sign := if q < 0 then "-" else ""
  let a := |q|
  let ip := (⌊a⌋).toNat
  let ds := fracDigits 20 (a - ip)
  if ds.isEmpty then sign ++ toString ip
  else sign ++ toString ip ++ "." ++ String.join (ds.map (fun d => toString d))

mutual

/-- Stringification `String(v)` of an element of an array being joined
(`Array.prototype.toString`): `null` and `undefined` print as the empty
string, nested arrays join recursively, plain objects print as
`"[object Object]"`. -/
def jsElemStr : JSVal → String
  | .vstr s => s
  | .vnum q => numToStr q
  | .vnan => "NaN"
  | .vbool b => if b then "true" else "false"
  | .vnull => ""
  | .vundef => ""
  | .varr l => jsListStr l
  | .vobj _ => "[object Object]"

/-- Model of `Array.prototype.join(",")`. -/
def jsListStr : List JSVal → String
  | [] => ""
  | [x] => jsElemStr x
  | x :: xs => jsElemStr x ++ "," ++ jsListStr xs

end

/-- JavaScript `ToNumber` (the unary `+v` coercion) on the modelled
domain; `none` models NaN.  Arrays convert through their joined string
(`ToPrimitive`), plain objects through `"[object Object]"` (always NaN). -/
def toNumberOpt : JSVal → Option ℚ
  | .vstr s => toNumberOfString s
  | .vnum q => some q
  | .vnan => none
  | .vbool b => some (if b then 1 else 0)
  | .vnull => some 0
  | .vundef => none
  | .varr l => toNumberOfString (jsListStr l)
  | .vobj _ => none

/-- The test `(+v) == v` from `fixValueType` (`src/index.js` line 121).
By the loose-equality rules this holds exactly when `v` is neither
`null` nor `undefined` (which are loosely equal only to each other) and
`+v` is not NaN: in every other case both sides convert to the same
number. -/
def plusSelfEq : JSVal → Bool
  | .vnull => false
  | .vundef => false
  | v => (toNumberOpt v).isSome

/-- Strict test `v === ''` used in `fixValueType`. -/
def isEmptyStr : JSVal → Bool
  | .vstr "" => true
  | _ => false

/-- Model of `Array.isArray(v)`. -/
def isArr : JSVal → Bool
  | .varr _ => true
  | _ => false

/-- The five sequential string checks of `fixValueType`
(`src/index.js` lines 115-119): each compares against a distinct string
literal, so at most one fires. -/
def fixStr : String → JSVal
  | "undefined" => .vundef
  | "false" => .vbool false
  | "null" => .vnull
  | "true" => .vbool true
  | "NaN" => .vnan
  | s => .vstr s

/-- Apply the string checks; non-strings pass through unchanged. -/
def fix1 : JSVal → JSVal
  | .vstr s => fixStr s
  | v => v

/-- Model of `fixValueType` (`src/index.js` lines 114-123): the string checks,
then `if ((+v) == v && v !== '') v = (+v)`. -/
def fixValueType (v : JSVal) : JSVal :=
  let w := fix1 v
  if plusSelfEq w && !(isEmptyStr w) then
    match toNumberOpt w with
    | some q => .vnum q
    | none => .vnan
  else w

/-- JavaScript `typeof`. -/
def jsTypeof : JSVal → String
  | .vstr _ => "string"
  | .vnum _ => "number"
  | .vnan => "number"
  | .vbool _ => "boolean"
  | .vnull => "object"
  | .vundef => "undefined"
  | .varr _ => "object"
  | .vobj _ => "object"

/-- Model of `typeOf` (`src/index.js` lines 126-128): `typeof fixValueType(v)`. -/
def typeOf (v : JSVal) : String :=
  jsTypeof (fixValueType v)

/-- One entry of the `namespaces` summary: `{ namespace: k, type: t }`
(`src/index.js` line 139).  The first field is called `nspace` here
because `namespace` is reserved in Lean. -/
structure NsEntry where
  nspace : String
  type : String
deriving DecidableEq

/-- Model of `logInfo` (`src/index.js` lines 131-143): returns an empty summary unless the
argument is a non-null object (note `typeof null = "object"` but `!null`
is true, and `typeof` of an array is `"object"`, so arrays are
enumerated by index like `Object.keys` does); each key maps to its name
and coerced type, with arrays tagged `"array"`. -/
def logInfo : JSVal → List (String × NsEntry)
  | .vobj kvs => kvs.map (fun kv => (kv.1, ⟨kv.1, if isArr kv.2 then "array" else typeOf kv.2⟩))
  | .varr l => l.enum.map (fun ia => (toString ia.1, ⟨toString ia.1, if isArr ia.2 then "array" else typeOf ia.2⟩))
  | _ => []

/-! ### Association lists with the JavaScript object update discipline -/

/-- Lookup of a key in an object modelled as an association list. -/
def alookup {α β : Type} [DecidableEq α] : List (α × β) → α → Option β
  | [], _ => none
  | kv :: rest, a => if kv.1 = a then some kv.2 else alookup rest a

/-- Assignment `o[a] = b`: overwrite the existing entry in place, or
append a fresh key at the end. -/
def aset {α β : Type} [DecidableEq α] (a : α) (b : β) : List (α × β) → List (α × β)
  | [] => [(a, b)]
  | kv :: rest => if kv.1 = a then (a, b) :: rest else kv :: aset a b rest

/-! ### The aggregation store -/

/-- Per-segment sub-aggregate `{ count, avgDurationMs }`
(`src/index.js` line 190). -/
structure SegAgg where
  count : Nat
  avgDurationMs : ℚ
deriving DecidableEq

/-- Per-outcome aggregate `{ count, segments }` (`src/index.js`
line 173). -/
structure OutAgg where
  count : Nat
  segments : List (Int × SegAgg)
deriving DecidableEq

/-- The `namespaces` summary of the last request (`src/index.js`
lines 210-214). -/
structure Namespaces where
  params : List (String × NsEntry)
  query : List (String × NsEntry)
  body : List (String × NsEntry)
deriving DecidableEq

/-- Per-operation aggregate `{ count, avgDurationMs, statusCodes }`
(`src/index.js` line 170); `namespaces` is absent (`none`) until the
first completed `log` sets it. -/
structure OpAgg where
  count : Nat
  avgDurationMs : ℚ
  statusCodes : List (Nat × OutAgg)
  namespaces : Option Namespaces
deriving DecidableEq

/-- The store `global.slamCounts`: operation key (`"METHOD route"`) to aggregate. -/
abbrev Store := List (String × OpAgg)

/-- Freshly created operation aggregate
(`{ count: 0, avgDurationMs: 0, statusCodes: {} }`, line 170). -/
def emptyOp : OpAgg := ⟨0, 0, [], none⟩

/-- Freshly created outcome aggregate (`{ count: 0, segments: {} }`,
line 173). -/
def emptyOut : OutAgg := ⟨0, []⟩

/-- One completed request observation as consumed by `log`
(`res.slam` at `src/index.js` lines 145-161): the operation key
`"METHOD route"`, the numeric status code, the time segment captured at
request start, the measured duration, and the request payloads
summarised into `namespaces`. -/
structure Obs where
  method : String
  statusCode : Nat
  timeSegment : Int
  durationMs : ℚ
  params : JSVal
  query : JSVal
  body : JSVal

/-- Observation with no request payload (`params`/`query`/`body`
undefined). -/
def mkObsSeg (m : String) (sc : Nat) (seg : Int) (d : ℚ) : Obs :=
  ⟨m, sc, seg, d, .vundef, .vundef, .vundef⟩

/-- The operation aggregate the store holds for `m` (the freshly created
one if absent), as the create-if-not-exists at line 170 produces. -/
def opAggOf (st : Store) (m : String) : OpAgg :=
  (alookup st m).getD emptyOp

/-- The outcome aggregate for `(m, sc)` (fresh if absent, line 172). -/
def outAggOf (st : Store) (m : String) (sc : Nat) : OutAgg :=
  (alookup (opAggOf st m).statusCodes sc).getD emptyOut

/-- The stored per-segment aggregate for `(m, sc, k)`, if present. -/
def segAggOf (st : Store) (m : String) (sc : Nat) (k : Int) : Option SegAgg :=
  alookup (outAggOf st m sc).segments k

/-- The `prev` read at `src/index.js` line 193: the existing segment
entry, or the freshly created `{ count: 0, avgDurationMs: 0 }`. -/
def prevSeg (st : Store) (m : String) (sc : Nat) (k : Int) : SegAgg :=
  (segAggOf st m sc k).getD ⟨0, 0⟩

/-- The touched outcome's segment map after the per-segment update
(`src/index.js` lines 190-197) and before eviction: the new average is
computed from the previous count, then the count is incremented. -/
def segsUpdated (obs : Obs) (st : Store) : List (Int × SegAgg) :=
  let prev := prevSeg st obs.method obs.statusCode obs.timeSegment
  aset obs.timeSegment
    ⟨prev.count + 1,
     (obs.durationMs + prev.avgDurationMs * (prev.count : ℚ)) / ((prev.count : ℚ) + 1)⟩
    (outAggOf st obs.method obs.statusCode).segments

/-- Eviction (`src/index.js` lines 199-204): `minK = tsToSegment() - 23`
and every key `k < minK` is deleted from the touched segment map. -/
def newSegs (nowTs : Int) (obs : Obs) (st : Store) : List (Int × SegAgg) :=
  (segsUpdated obs st).filter (fun kv => decide (¬ kv.1 < tsToSegment nowTs none - 23))

/-- The touched outcome aggregate after `log`: its count is incremented
(line 179) and its segment map is the updated, evicted one (line 207). -/
def newOutAgg (nowTs : Int) (obs : Obs) (st : Store) : OutAgg :=
  ⟨(outAggOf st obs.method obs.statusCode).count + 1, newSegs nowTs obs st⟩

/-- The `namespaces` summary stored for the current request
(`src/index.js` lines 210-214). -/
def nsOf (obs : Obs) : Namespaces :=
  ⟨logInfo obs.params, logInfo obs.query, logInfo obs.body⟩

/-- The touched operation aggregate after `log` (`src/index.js`
lines 176-214).  Crucially, `var prev = global.slamCounts[obj.method]`
at line 176 is a reference to the live object, not a copy, and
`global.slamCounts[obj.method].count++` at line 180 runs before the
average formula at line 183 reads `prev.count`; so the formula sees the
already incremented count:
`new_avg = (durationMs + avg * (count+1)) / ((count+1) + 1)`. -/
def newOpAgg (nowTs : Int) (obs : Obs) (st : Store) : OpAgg :=
  let op0 := opAggOf st obs.method
  ⟨op0.count + 1,
   (obs.durationMs + op0.avgDurationMs * ((op0.count : ℚ) + 1)) / (((op0.count : ℚ) + 1) + 1),
   aset obs.statusCode (newOutAgg nowTs obs st) op0.statusCodes,
   some (nsOf obs)⟩

/-- The store mutation performed by one admitted `log()` call
(`src/index.js` lines 148-215, minus the one-shot latch, which is
modelled separately by `fireLog`): the operation entry for
`obs.method` is created if missing and replaced by `newOpAgg`.
`nowTs` is the wall-clock timestamp at which the call runs (used only
by the eviction's `tsToSegment()`). -/
def log (nowTs : Int) (obs : Obs) (st : Store) : Store :=
  aset obs.method (newOpAgg nowTs obs st) st

/-- Lifetime count stored for operation `m`. -/
def opCount (st : Store) (m : String) : Nat :=
  (opAggOf st m).count

/-- Count stored for the outcome `(m, sc)`. -/
def outCount (st : Store) (m : String) (sc : Nat) : Nat :=
  (outAggOf st m sc).count

/-- Sum of the per-segment counts of a segment map. -/
def segSum (l : List (Int × SegAgg)) : Nat :=
  (l.map (fun kv => kv.2.count)).sum

/-- A store reached by replaying a list of `(nowTs, observation)`
events against the initially empty `global.slamCounts`. -/
def runLog (evs : List (Int × Obs)) : Store :=
  evs.foldl (fun st e => log e.1 e.2 st) []

/-- Replay of observations that share one operation key, outcome and
time segment: event `(nowTs, d)` records duration `d` at wall-clock
time `nowTs`. -/
def runSameSeg (m : String) (sc : Nat) (seg : Int) (evs : List (Int × ℚ)) : Store :=
  evs.foldl (fun st e => log e.1 (mkObsSeg m sc seg e.2) st) []

/-- Invariant: every outcome aggregate's segment counts sum to at most
its lifetime count. -/
def SumLeInv (st : Store) : Prop :=
  ∀ p ∈ st, ∀ q ∈ p.2.statusCodes, segSum q.2.segments ≤ q.2.count

/-- Invariant: every outcome aggregate's segment counts sum to exactly
its lifetime count. -/
def SumEqInv (st : Store) : Prop :=
  ∀ p ∈ st, ∀ q ∈ p.2.statusCodes, segSum q.2.segments = q.2.count

/-! ### The read surface: `GET /slamCounts` -/

/-- Insert one entry into a list already sorted by descending count
(the comparator `(a, b) => b.count - a.count` of `src/index.js`
line 234; ties keep their original order, as the engine's stable sort
does). -/
def insertByCount (p : String × OpAgg) : List (String × OpAgg) → List (String × OpAgg)
  | [] => [p]
  | q :: rest => if p.2.count ≤ q.2.count then q :: insertByCount p rest else p :: q :: rest

/-- The `/slamCounts` handler (`src/index.js` lines 229-243): the store
is turned into an array of entries, sorted by descending lifetime
count, and rebuilt into a keyed object (modelled as the sorted entry
list; the handler's `{ key, ...value }` flattening is presentational). -/
def slamCountsView : Store → List (String × OpAgg)
  | [] => []
  | p :: rest => insertByCount p (slamCountsView rest)

/-! ### The per-request one-shot latch and the middleware boundary -/

/-- The per-request latch `res.slam.logged` (`src/index.js`
lines 149-150): `log()` returns immediately when it is set and sets it
before touching the store. -/
structure ReqLatch where
  logged : Bool
deriving DecidableEq

/-- One invocation of the `log` completion handler for a request, as
fired by either the `'finish'` or the `'close'` signal
(`src/index.js` lines 217-218): a latched request is left untouched,
otherwise the latch is set and the store is updated once. -/
def fireLog (nowTs : Int) (obs : Obs) (s : ReqLatch × Store) : ReqLatch × Store :=
  if s.1.logged then s else (⟨true⟩, log nowTs obs s.2)

/-- Whether the middleware's setup body (`src/index.js` lines 84-219)
ran to completion or threw. -/
inductive SetupResult where
  | ok
  | threw (msg : String)

/-- What one middleware invocation yields to the host: how many times
`next()` was called, and the exception escaping to the host, if any. -/
structure MwOutcome where
  nextCalls : Nat
  raised : Option String
deriving DecidableEq

/-- The middleware's control flow (`src/index.js` lines 81-226):
`try { ...setup...; next(); } catch (e) { console.log(...); next(); }`.
A successful body reaches the `next()` at line 219; a thrown setup is
caught at line 221 and `next()` is called at line 223.  Either way
`next()` runs exactly once and nothing escapes.  (`next()` itself is
the host's continuation; Express dispatches downstream handlers inside
its own try/catch, so it does not throw back synchronously.) -/
def runMiddleware : SetupResult → MwOutcome
  | .ok => ⟨1, none⟩
  | .threw _ => ⟨1, none⟩

/-- The `log` body as a fallible computation: the same statement sequence as
`log`, with every step a pure binding — the body contains no failing
operation (each map access is guarded by create-if-not-exists), so the
computation always succeeds. -/
def logE (nowTs : Int) (obs : Obs) (st : Store) : Except String Store := do
  let op1 := newOpAgg nowTs obs st
  pure (aset obs.method op1 st)

/-! ### Concrete inputs used by the claim evaluations and witnesses -/

/-- First observation of the C1 evaluation: `GET /users/:id`, status
200, segment 5, duration 100 ms. -/
def obsC1a : Obs := mkObsSeg "GET /users/:id" 200 5 100

/-- Second observation of the C1 evaluation: duration 200 ms. -/
def obsC1b : Obs := mkObsSeg "GET /users/:id" 200 5 200

/-- Observation used by the C3 witness. -/
def obsC3 : Obs := mkObsSeg "POST /orders" 201 5 40

/-- Observation of the C5 evaluation: `GET /items`, status 200,
segment 5, duration 100 ms. -/
def obsC5 : Obs := mkObsSeg "GET /items" 200 5 100

/-- First request of the C10 witness, with a query payload. -/
def obsC10a : Obs :=
  ⟨"GET /search", 200, 5, 10, .vundef,
   .vobj [("old", .vstr "1")], .vundef⟩

/-- Second request of the C10 witness: its `params` exercise the type
coercion (`"42"` is numeric, `"true"` coerces through `true` to the
number `1`, arrays are tagged directly). -/
def obsC10b : Obs :=
  ⟨"GET /search", 200, 5, 20,
   .vobj [("id", .vstr "42"), ("tags", .varr [.vstr "a"]),
          ("flag", .vstr "true"), ("name", .vstr "bob")],
   .vundef, .vnull⟩

/-- First observation of the C7 witness. -/
def obsC7a : Obs := mkObsSeg "DELETE /items/:id" 204 5 10

/-- Second observation of the C7 witness (same operation, distinct
duration). -/
def obsC7b : Obs := mkObsSeg "DELETE /items/:id" 204 5 20

/-- Events of the C6 witness: three observations at wall-clock time
600000 ms (segment 2) with durations 100, 200 and 300 ms. -/
def evsC6 : List (Int × ℚ) := [(600000, 100), (600000, 200), (600000, 300)]

/-! ### Helper lemmas on the association-list operations -/

theorem alookup_aset_self {α β : Type} [DecidableEq α] (a : α) (b : β) (l : List (α × β)) :
    alookup (aset a b l) a = some b := by
  induction l with
  | nil => simp [aset, alookup]
  | cons kv rest ih =>
      by_cases h : kv.1 = a
      · simp [aset, alookup, h]
      · simp [aset, alookup, h, ih]

theorem alookup_aset_ne {α β : Type} [DecidableEq α] {a c : α} (b : β) (l : List (α × β))
    (h : a ≠ c) : alookup (aset a b l) c = alookup l c := by
  induction l with
  | nil => simp [aset, alookup, h]
  | cons kv rest ih =>
      by_cases hk : kv.1 = a
      · simp [aset, alookup, hk, h, ih]
      · by_cases hc : kv.1 = c <;> simp [aset, alookup, hk, hc, Ne.symm h, ih]

theorem mem_aset {α β : Type} [DecidableEq α] {a : α} {b : β} {l : List (α × β)}
    {p : α × β} (hp : p ∈ aset a b l) : p = (a, b) ∨ p ∈ l := by
  induction l with
  | nil => simpa [aset] using hp
  | cons kv rest ih =>
      by_cases hk : kv.1 = a
      · simp only [aset, hk, if_true, List.mem_cons] at hp
        rcases hp with h | h
        · exact Or.inl h
        · exact Or.inr (List.mem_cons_of_mem _ h)
      · simp only [aset, hk, if_false, List.mem_cons] at hp
        rcases hp with h | h
        · exact Or.inr (by simp [h])
        · rcases ih h with h' | h'
          · exact Or.inl h'
          · exact Or.inr (List.mem_cons_of_mem _ h')

theorem alookup_mem {α β : Type} [DecidableEq α] {l : List (α × β)} {a : α} {b : β}
    (h : alookup l a = some b) : (a, b) ∈ l := by
  induction l with
  | nil => simp [alookup] at h
  | cons kv rest ih =>
      obtain ⟨k, v⟩ := kv
      by_cases hk : k = a
      · subst hk
        simp only [alookup, if_true, Option.some.injEq] at h
        subst h
        exact List.mem_cons_self _ _
      · simp only [alookup, hk, if_false] at h
        exact List.mem_cons_of_mem _ (ih h)

theorem alookup_filter_key {α β : Type} [DecidableEq α] (p : α → Bool)
    (l : List (α × β)) (a : α) :
    alookup (l.filter (fun kv => p kv.1)) a = if p a then alookup l a else none := by
  induction l with
  | nil => simp [alookup]
  | cons kv rest ih =>
      by_cases hk : kv.1 = a
      · subst hk
        by_cases hp : p kv.1
        · simp [List.filter_cons, hp, alookup, ih]
        · simp [List.filter_cons, hp, alookup, ih]
      · by_cases hp : p kv.1
        · simp [List.filter_cons, hp, alookup, hk, ih]
        · simp [List.filter_cons, hp, alookup, hk, ih]

theorem segSum_filter_le (p : Int × SegAgg → Bool) (l : List (Int × SegAgg)) :
    segSum (l.filter p) ≤ segSum l := by
  induction l with
  | nil => simp [segSum]
  | cons kv rest ih =>
      by_cases hp : p kv
      · simp [segSum, List.filter_cons, hp] at ih ⊢
        omega
      · simp [segSum, List.filter_cons, hp] at ih ⊢
        omega

theorem segSum_update (l : List (Int × SegAgg)) (k : Int) (a : ℚ) :
    segSum (aset k ⟨((alookup l k).getD ⟨0, 0⟩).count + 1, a⟩ l) = segSum l + 1 := by
  induction l with
  | nil => simp [aset, alookup, segSum]
  | cons kv rest ih =>
      by_cases hk : kv.1 = k
      · subst hk
        simp [aset, alookup, segSum]
        omega
      · simp only [aset, hk, if_false, alookup, segSum, List.map_cons, List.sum_cons] at ih ⊢
        omega

/-! ### Characterization of one `log` step -/

theorem opAgg_log_self (nowTs : Int) (obs : Obs) (st : Store) :
    opAggOf (log nowTs obs st) obs.method = newOpAgg nowTs obs st := by
  simp [log, opAggOf, alookup_aset_self]

theorem opAgg_log_ne (nowTs : Int) (obs : Obs) (st : Store) {m : String}
    (h : obs.method ≠ m) : opAggOf (log nowTs obs st) m = opAggOf st m := by
  simp [log, opAggOf, alookup_aset_ne _ _ h]

theorem outAgg_log_self (nowTs : Int) (obs : Obs) (st : Store) :
    outAggOf (log nowTs obs st) obs.method obs.statusCode = newOutAgg nowTs obs st := by
  simp [outAggOf, opAgg_log_self, newOpAgg, alookup_aset_self]

theorem opCount_log_self (nowTs : Int) (obs : Obs) (st : Store) :
    opCount (log nowTs obs st) obs.method = opCount st obs.method + 1 := by
  rw [opCount, opAgg_log_self]
  simp [newOpAgg, opCount]

theorem outCount_log_self (nowTs : Int) (obs : Obs) (st : Store) :
    outCount (log nowTs obs st) obs.method obs.statusCode
      = outCount st obs.method obs.statusCode + 1 := by
  rw [outCount, outAgg_log_self]
  simp [newOutAgg, outCount]

theorem alookup_filter_lt (c : Int) (l : List (Int × SegAgg)) (k : Int) :
    alookup (l.filter (fun kv => decide (¬ kv.1 < c))) k
      = if k < c then none else alookup l k := by
  induction l with
  | nil => by_cases h : k < c <;> simp [alookup, h]
  | cons kv rest ih =>
      rw [List.filter_cons]
      by_cases h : kv.1 < c
      · rw [if_neg (by simpa using h), ih]
        by_cases hk : kv.1 = k
        · subst hk
          rw [if_pos h, if_pos h]
        · by_cases h2 : k < c <;> simp [alookup, hk, h2]
      · rw [if_pos (by simpa using h)]
        by_cases hk : kv.1 = k
        · subst hk
          simp [alookup, h]
        · simp only [alookup, hk, if_false]
          rw [ih]

theorem segAgg_log_eq (nowTs : Int) (obs : Obs) (st : Store) (k : Int) :
    segAggOf (log nowTs obs st) obs.method obs.statusCode k
      = if k < tsToSegment nowTs none - 23 then none
        else alookup (segsUpdated obs st) k := by
  have h1 : segAggOf (log nowTs obs st) obs.method obs.statusCode k
      = alookup (newSegs nowTs obs st) k := by
    simp [segAggOf, outAgg_log_self, newOutAgg]
  rw [h1, newSegs, alookup_filter_lt]

theorem segAgg_log_self (nowTs : Int) (obs : Obs) (st : Store)
    (h : ¬ obs.timeSegment < tsToSegment nowTs none - 23) :
    segAggOf (log nowTs obs st) obs.method obs.statusCode obs.timeSegment
      = some ⟨(prevSeg st obs.method obs.statusCode obs.timeSegment).count + 1,
          (obs.durationMs
            + (prevSeg st obs.method obs.statusCode obs.timeSegment).avgDurationMs
              * ((prevSeg st obs.method obs.statusCode obs.timeSegment).count : ℚ))
          / (((prevSeg st obs.method obs.statusCode obs.timeSegment).count : ℚ) + 1)⟩ := by
  rw [segAgg_log_eq, if_neg h, segsUpdated, alookup_aset_self]

theorem segAgg_log_other (nowTs : Int) (obs : Obs) (st : Store) (k : Int)
    (hkeep : ¬ k < tsToSegment nowTs none - 23) (hne : obs.timeSegment ≠ k) :
    segAggOf (log nowTs obs st) obs.method obs.statusCode k
      = segAggOf st obs.method obs.statusCode k := by
  rw [segAgg_log_eq, if_neg hkeep, segsUpdated, alookup_aset_ne _ _ hne]
  rfl

/-! ### Invariant lemmas for the segment-sum bookkeeping -/

theorem segSum_segsUpdated (obs : Obs) (st : Store) :
    segSum (segsUpdated obs st)
      = segSum (outAggOf st obs.method obs.statusCode).segments + 1 := by
  rw [segsUpdated]
  exact segSum_update _ _ _

theorem touchedOut_sum_le (st : Store) (m : String) (sc : Nat) (h : SumLeInv st) :
    segSum (outAggOf st m sc).segments ≤ (outAggOf st m sc).count := by
  rw [outAggOf, opAggOf]
  cases hop : alookup st m with
  | none => simp [emptyOp, alookup, emptyOut, segSum]
  | some op =>
      simp only [Option.getD_some]
      cases hout : alookup op.statusCodes sc with
      | none => simp [hout, emptyOut, segSum]
      | some out =>
          simpa using h (m, op) (alookup_mem hop) (sc, out) (alookup_mem hout)

theorem touchedOut_sum_eq (st : Store) (m : String) (sc : Nat) (h : SumEqInv st) :
    segSum (outAggOf st m sc).segments = (outAggOf st m sc).count := by
  rw [outAggOf, opAggOf]
  cases hop : alookup st m with
  | none => simp [emptyOp, alookup, emptyOut, segSum]
  | some op =>
      simp only [Option.getD_some]
      cases hout : alookup op.statusCodes sc with
      | none => simp [hout, emptyOut, segSum]
      | some out =>
          simpa using h (m, op) (alookup_mem hop) (sc, out) (alookup_mem hout)

theorem statusCodes_mem_cases (st : Store) (nowTs : Int) (obs : Obs)
    {q : Nat × OutAgg} (hq : q ∈ (newOpAgg nowTs obs st).statusCodes) :
    q = (obs.statusCode, newOutAgg nowTs obs st)
      ∨ q ∈ (opAggOf st obs.method).statusCodes := by
  simp only [newOpAgg] at hq
  exact mem_aset hq

theorem store_mem_cases (st : Store) (nowTs : Int) (obs : Obs)
    {p : String × OpAgg} (hp : p ∈ log nowTs obs st) :
    p = (obs.method, newOpAgg nowTs obs st) ∨ p ∈ st := by
  simp only [log] at hp
  exact mem_aset hp

theorem opAgg_mem_of_statusCodes {st : Store} {m : String} {q : Nat × OutAgg}
    (hq : q ∈ (opAggOf st m).statusCodes) :
    ∃ op, (m, op) ∈ st ∧ q ∈ op.statusCodes := by
  rw [opAggOf] at hq
  cases hop : alookup st m with
  | none => rw [hop] at hq; simp [emptyOp] at hq
  | some op =>
      rw [hop] at hq
      exact ⟨op, alookup_mem hop, hq⟩

theorem sumLeInv_log (nowTs : Int) (obs : Obs) (st : Store) (h : SumLeInv st) :
    SumLeInv (log nowTs obs st) := by
  intro p hp q hq
  rcases store_mem_cases st nowTs obs hp with hnew | hold
  · subst hnew
    rcases statusCodes_mem_cases st nowTs obs hq with hq1 | hq2
    · subst hq1
      have h1 : segSum (newSegs nowTs obs st) ≤ segSum (segsUpdated obs st) :=
        segSum_filter_le _ _
      have h2 := segSum_segsUpdated obs st
      have h3 := touchedOut_sum_le st obs.method obs.statusCode h
      simp only [newOutAgg]
      omega
    · rcases opAgg_mem_of_statusCodes hq2 with ⟨op, hop, hq3⟩
      exact h (obs.method, op) hop q hq3
  · exact h p hold q hq

theorem sumEqInv_log (nowTs : Int) (obs : Obs) (st : Store) (h : SumEqInv st)
    (hkeep : ∀ kv ∈ segsUpdated obs st, ¬ kv.1 < tsToSegment nowTs none - 23) :
    SumEqInv (log nowTs obs st) := by
  intro p hp q hq
  rcases store_mem_cases st nowTs obs hp with hnew | hold
  · subst hnew
    rcases statusCodes_mem_cases st nowTs obs hq with hq1 | hq2
    · subst hq1
      have h1 : newSegs nowTs obs st = segsUpdated obs st := by
        rw [newSegs]
        exact List.filter_eq_self.mpr (fun kv hkv => by simpa using hkeep kv hkv)
      have h2 := segSum_segsUpdated obs st
      have h3 := touchedOut_sum_eq st obs.method obs.statusCode h
      simp only [newOutAgg, h1]
      omega
    · rcases opAgg_mem_of_statusCodes hq2 with ⟨op, hop, hq3⟩
      exact h (obs.method, op) hop q hq3
  · exact h p hold q hq

theorem sumLeInv_runLog (evs : List (Int × Obs)) : SumLeInv (runLog evs) := by
  have base : SumLeInv [] := by intro p hp; simp at hp
  rw [runLog]
  generalize hst : ([] : Store) = st at base
  clear hst
  induction evs generalizing st with
  | nil => exact base
  | cons e rest ih => exact ih _ (sumLeInv_log e.1 e.2 st base)

theorem outCount_log_mono (nowTs : Int) (obs : Obs) (st : Store) (m : String) (sc : Nat) :
    outCount st m sc ≤ outCount (log nowTs obs st) m sc := by
  by_cases hm : obs.method = m
  · subst hm
    by_cases hsc : obs.statusCode = sc
    · subst hsc
      rw [outCount_log_self]
      omega
    · rw [outCount, outCount, outAggOf, outAggOf, opAgg_log_self, newOpAgg]
      simp only
      rw [alookup_aset_ne _ _ hsc]
  · rw [outCount, outCount, outAggOf, outAggOf, opAgg_log_ne _ _ _ hm]

theorem opCount_log_mono (nowTs : Int) (obs : Obs) (st : Store) (m : String) :
    opCount st m ≤ opCount (log nowTs obs st) m := by
  by_cases hm : obs.method = m
  · subst hm
    rw [opCount_log_self]
    omega
  · rw [opCount, opCount, opAgg_log_ne _ _ _ hm]

/-! ### The `/slamCounts` sort is a permutation of the store -/

theorem insertByCount_perm (p : String × OpAgg) (l : List (String × OpAgg)) :
    List.Perm (insertByCount p l) (p :: l) := by
  induction l with
  | nil => simp [insertByCount]
  | cons q rest ih =>
      rw [insertByCount]
      by_cases h : p.2.count ≤ q.2.count
      · rw [if_pos h]
        exact (ih.cons q).trans (List.Perm.swap p q rest)
      · rw [if_neg h]

theorem slamCountsView_perm (st : Store) : List.Perm (slamCountsView st) st := by
  induction st with
  | nil => simp [slamCountsView]
  | cons p rest ih =>
      rw [slamCountsView]
      exact (insertByCount_perm p _).trans (ih.cons p)

/-! ### Time segmentation facts -/

theorem tsToSegment_some_of_ne (nowTs t : Int) (h : t ≠ 0) :
    tsToSegment nowTs (some t) = Int.fdiv t 300000 := by
  rw [tsToSegment, if_neg h]
  norm_num

theorem tsToSegment_none_segment (s : Int) :
    tsToSegment (segmentToTs s) none = s := by
  rw [tsToSegment, segmentToTs]
  exact Int.mul_fdiv_cancel s (by norm_num)

theorem tsToSegment_segmentToTs (nowTs s : Int) (h : s ≠ 0) :
    tsToSegment nowTs (some (segmentToTs s)) = s := by
  have hne : segmentToTs s ≠ 0 := by
    rw [segmentToTs]
    exact mul_ne_zero h (by norm_num)
  rw [tsToSegment_some_of_ne _ _ hne, segmentToTs]
  have : (1000 * 60 * 5 : Int) = 300000 := by norm_num
  rw [this]
  exact Int.mul_fdiv_cancel s (by norm_num)

/-! ### The per-segment running mean over one shared segment (claim C6) -/

theorem runSameSeg_aux (m : String) (sc : Nat) (seg : Int) (evs : List (Int × ℚ)) :
    ∀ (st : Store) (n : Nat) (s : ℚ),
      (∀ e ∈ evs, ¬ seg < tsToSegment e.1 none - 23) →
      segAggOf st m sc seg = (if n = 0 then none else some ⟨n, s / (n : ℚ)⟩) →
      (n = 0 → s = 0) →
      segAggOf (evs.foldl (fun acc e => log e.1 (mkObsSeg m sc seg e.2) acc) st) m sc seg
        = (if n + evs.length = 0 then none
           else some ⟨n + evs.length,
                  (s + (evs.map Prod.snd).sum) / ((n + evs.length : Nat) : ℚ)⟩) := by
  induction evs with
  | nil =>
      intro st n s hw hst hz
      simpa using hst
  | cons e rest ih =>
      intro st n s hw hst hz
      rw [List.foldl_cons]
      have hwhead : ¬ seg < tsToSegment e.1 none - 23 := hw e (List.mem_cons_self _ _)
      have hprev : prevSeg st m sc seg
          = (if n = 0 then (⟨0, 0⟩ : SegAgg) else ⟨n, s / (n : ℚ)⟩) := by
        rw [prevSeg, hst]
        by_cases hn : n = 0 <;> simp [hn]
      have h1 : segAggOf (log e.1 (mkObsSeg m sc seg e.2) st) m sc seg
          = some ⟨(prevSeg st m sc seg).count + 1,
              (e.2 + (prevSeg st m sc seg).avgDurationMs * ((prevSeg st m sc seg).count : ℚ))
              / (((prevSeg st m sc seg).count : ℚ) + 1)⟩ :=
        segAgg_log_self e.1 (mkObsSeg m sc seg e.2) st hwhead
      have hst' : segAggOf (log e.1 (mkObsSeg m sc seg e.2) st) m sc seg
          = some ⟨n + 1, (s + e.2) / ((n + 1 : Nat) : ℚ)⟩ := by
        rw [h1, hprev]
        by_cases hn : n = 0
        · have hs0 : s = 0 := hz hn
          subst hs0
          simp [hn]
        · have hcast : ((n : ℚ)) ≠ 0 := Nat.cast_ne_zero.mpr hn
          rw [if_neg hn]
          simp only [Option.some.injEq, SegAgg.mk.injEq, true_and]
          rw [div_mul_cancel₀ _ hcast]
          push_cast
          ring_nf
      have hrest : ∀ e' ∈ rest, ¬ seg < tsToSegment e'.1 none - 23 :=
        fun e' he' => hw e' (List.mem_cons_of_mem _ he')
      have happ := ih (log e.1 (mkObsSeg m sc seg e.2) st) (n + 1) (s + e.2) hrest
        (by rw [hst']; simp) (by omega)
      rw [happ]
      simp only [List.length_cons, List.map_cons, List.sum_cons]
      rw [if_neg (by omega), if_neg (by omega)]
      have hcount : n + 1 + rest.length = n + (rest.length + 1) := by omega
      rw [hcount, add_assoc]

/-! ### Claim theorems -/

/-- C4 counterexample: the claim asserts `segmentOf(t) = floor(t / 300000)`
for every timestamp and that `segmentOf` is deterministic whenever a
timestamp is given.  At the concrete timestamp `t = 0` the code's `!ts`
test fires, so the result follows the wall clock: at wall-clock time
600000 the call returns segment 2, at wall-clock time 0 it returns 0,
and 2 differs from `floor(0 / 300000) = 0`. -/
theorem c4_counterexample :
    tsToSegment 600000 (some 0) = 2
    ∧ tsToSegment 0 (some 0) = 0
    ∧ Int.fdiv 0 300000 = 0
    ∧ (2 : Int) ≠ 0 := by decide

/-- C4 (amended): for every nonzero timestamp `t`,
`segmentOf(t) = floor(t / 300000)`, independent of the wall clock, and
two nonzero timestamps map to the same segment iff their floors agree;
with no timestamp the current wall clock is used.  (At the falsy
timestamp `0` the implementation also falls back to the wall clock, as
the counterexample shows.) -/
theorem c4_segment_assignment :
    (∀ nowTs t : Int, t ≠ 0 → tsToSegment nowTs (some t) = Int.fdiv t 300000)
    ∧ (∀ n1 n2 t : Int, t ≠ 0 → tsToSegment n1 (some t) = tsToSegment n2 (some t))
    ∧ (∀ nowTs t1 t2 : Int, t1 ≠ 0 → t2 ≠ 0 →
        (tsToSegment nowTs (some t1) = tsToSegment nowTs (some t2)
          ↔ Int.fdiv t1 300000 = Int.fdiv t2 300000))
    ∧ (∀ nowTs : Int, tsToSegment nowTs none = Int.fdiv nowTs 300000) := by
  refine ⟨tsToSegment_some_of_ne, ?_, ?_, ?_⟩
  · intro n1 n2 t h
    rw [tsToSegment_some_of_ne _ _ h, tsToSegment_some_of_ne _ _ h]
  · intro nowTs t1 t2 h1 h2
    rw [tsToSegment_some_of_ne _ _ h1, tsToSegment_some_of_ne _ _ h2]
  · intro nowTs
    rw [tsToSegment]
    norm_num

/-- C4 witness: the amended statement evaluated at the nonzero
timestamp 600001 with wall clock 0. -/
theorem c4_segment_assignment_witness :
    (600001 : Int) ≠ 0 ∧ tsToSegment 0 (some 600001) = 2 :=
  ⟨by decide, (c4_segment_assignment.1 0 600001 (by decide)).trans (by decide)⟩

/-- C9 counterexample: the claim asserts `segmentOf(startOf(s)) = s` for
every segment `s`.  At `s = 0` the start instant is the timestamp `0`,
which is falsy, so `segmentOf` follows the wall clock instead: at
wall-clock time 600000 the round trip returns 2, not 0. -/
theorem c9_counterexample :
    segmentToTs 0 = 0
    ∧ tsToSegment 600000 (some (segmentToTs 0)) = 2
    ∧ (2 : Int) ≠ 0 := by decide

/-- C9 (amended): `startOf(s) = s * 300000` for every segment, and the
round trip `segmentOf(startOf(s)) = s` holds for every nonzero segment
(at `s = 0` the start instant `0` is falsy and `segmentOf` falls back
to the wall clock, as the counterexample shows). -/
theorem c9_start_roundtrip :
    (∀ s : Int, segmentToTs s = s * 300000)
    ∧ (∀ nowTs s : Int, s ≠ 0 → tsToSegment nowTs (some (segmentToTs s)) = s) := by
  constructor
  · intro s
    rw [segmentToTs]
    norm_num
  · exact tsToSegment_segmentToTs

/-- C9 witness: the amended round trip evaluated at segment 7 with
wall clock 123. -/
theorem c9_start_roundtrip_witness :
    (7 : Int) ≠ 0 ∧ tsToSegment 123 (some (segmentToTs 7)) = 7 :=
  ⟨by decide, c9_start_roundtrip.2 123 7 (by decide)⟩

/-- C1 (code bug): the claim requires the operation-level
`avgDurationMs` to be the running mean
`(durationMs + oldAvg * oldCount) / (oldCount + 1)` and hence the
arithmetic mean of all durations.  In the code,
`var prev = global.slamCounts[obj.method]` (line 176) aliases the live
aggregate and `count++` (line 180) runs before the formula (line 183)
reads `prev.count`, so the divisor is off by one.  Evaluating the code
on two observations of 100 ms and 200 ms: the lifetime count is 2 as
claimed, but the stored average is 100, not the arithmetic mean 150
(after the first call it is already 50, not 100). -/
theorem c1_operation_mean_code_eval :
    opCount (log 1500000 obsC1b (log 1500000 obsC1a [])) "GET /users/:id" = 2
    ∧ (opAggOf (log 1500000 obsC1b (log 1500000 obsC1a [])) "GET /users/:id").avgDurationMs
        = 100
    ∧ (opAggOf (log 1500000 obsC1a []) "GET /users/:id").avgDurationMs = 50
    ∧ (obsC1a.durationMs + obsC1b.durationMs) / 2 = 150
    ∧ (100 : ℚ) ≠ 150 := by
  norm_num [log, newOpAgg, newOutAgg, newSegs, segsUpdated, outAggOf, opAggOf, prevSeg,
    segAggOf, alookup, aset, emptyOp, emptyOut, nsOf, logInfo, obsC1a, obsC1b, mkObsSeg,
    tsToSegment, opCount]
  try decide

/-- C5 (code bug): on the empty store the `/slamCounts` view is empty,
and after exactly one `Record` the store holds exactly one operation
with one outcome and one segment, all counts 1 and the segment-level
average equal to the single duration (100 ms) — but the operation-level
stored average is 50, half the duration, because of the same
incremented-count slip as C1, contradicting the claim's "stored average
duration equals obs.durationMs". -/
theorem c5_single_record_eval :
    slamCountsView ([] : Store) = []
    ∧ log 1500000 obsC5 []
        = [("GET /items", ⟨1, 50, [(200, ⟨1, [(5, ⟨1, 100⟩)]⟩)], some ⟨[], [], []⟩⟩)]
    ∧ slamCountsView (log 1500000 obsC5 []) = log 1500000 obsC5 []
    ∧ (50 : ℚ) ≠ obsC5.durationMs := by
  refine ⟨rfl, ?_, ?_, ?_⟩
  all_goals
    norm_num [log, newOpAgg, newOutAgg, newSegs, segsUpdated, outAggOf, opAggOf, prevSeg,
      segAggOf, alookup, aset, emptyOp, emptyOut, nsOf, logInfo, obsC5, mkObsSeg,
      tsToSegment, slamCountsView, insertByCount]
  all_goals try decide

/-- C8: the aggregation core never fails the request being served: the
translated `log` body contains no failing step (`logE` always returns
`Except.ok`), and the middleware calls `next()` exactly once and lets
no exception escape, whether or not its setup body throws
(`src/index.js` lines 219-224). -/
theorem c8_no_error_propagation :
    (∀ s : SetupResult, runMiddleware s = ⟨1, none⟩)
    ∧ (∀ (nowTs : Int) (obs : Obs) (st : Store),
        logE nowTs obs st = Except.ok (log nowTs obs st)) := by
  constructor
  · intro s
    cases s <;> rfl
  · intro nowTs obs st
    rfl

/-- C6: recording N observations with one operation key, outcome and
time segment — each at a wall-clock time whose eviction horizon keeps
that segment — leaves the per-segment sub-aggregate with count N and
the exact arithmetic mean of the N durations (the per-segment update
computes its average from the count before the increment, so the
incremental mean is the true mean). -/
theorem c6_segment_mean (m : String) (sc : Nat) (seg : Int) (evs : List (Int × ℚ))
    (hne : evs ≠ [])
    (hw : ∀ e ∈ evs, ¬ seg < tsToSegment e.1 none - 23) :
    segAggOf (runSameSeg m sc seg evs) m sc seg
      = some ⟨evs.length, (evs.map Prod.snd).sum / (evs.length : ℚ)⟩ := by
  have h0 : segAggOf ([] : Store) m sc seg
      = (if (0 : Nat) = 0 then none else some ⟨0, 0 / ((0 : Nat) : ℚ)⟩) := by
    simp [segAggOf, outAggOf, opAggOf, alookup, emptyOp, emptyOut]
  have h := runSameSeg_aux m sc seg evs [] 0 0 hw h0 (fun _ => rfl)
  have hlen : evs.length ≠ 0 := fun hz => hne (List.length_eq_zero.mp hz)
  rw [runSameSeg, h, if_neg (by omega)]
  norm_num

/-- C6 witness: three observations of 100, 200 and 300 ms in segment 2
at wall-clock time 600000 yield count 3 and mean 200. -/
theorem c6_segment_mean_witness :
    evsC6 ≠ []
    ∧ (∀ e ∈ evsC6, ¬ (2 : Int) < tsToSegment e.1 none - 23)
    ∧ segAggOf (runSameSeg "GET /items" 200 2 evsC6) "GET /items" 200 2 = some ⟨3, 200⟩ :=
  ⟨by decide, by decide,
   (c6_segment_mean "GET /items" 200 2 evsC6 (by decide) (by decide)).trans
     (by norm_num [evsC6])⟩

/-- C7: the one-shot latch admits at most one store update per request —
a second completion signal is a no-op whatever observation it carries,
the first invocation on an unlatched request records exactly once and
sets the latch — while the store itself deduplicates nothing: two `log`
applications for the same operation always add two to its lifetime
count. -/
theorem c7_one_shot_latch :
    (∀ (n1 n2 : Int) (o1 o2 : Obs) (s : ReqLatch × Store),
        fireLog n2 o2 (fireLog n1 o1 s) = fireLog n1 o1 s)
    ∧ (∀ (n : Int) (o : Obs) (st : Store),
        fireLog n o (⟨false⟩, st) = (⟨true⟩, log n o st))
    ∧ (∀ (n : Int) (o : Obs) (st : Store),
        fireLog n o (⟨true⟩, st) = (⟨true⟩, st))
    ∧ (∀ (n1 n2 : Int) (o1 o2 : Obs) (st : Store) (m : String),
        o1.method = m → o2.method = m →
        opCount (log n2 o2 (log n1 o1 st)) m = opCount st m + 2) := by
  refine ⟨?_, ?_, ?_, ?_⟩
  · intro n1 n2 o1 o2 s
    by_cases h : s.1.logged
    · simp [fireLog, h]
    · simp [fireLog, h]
  · intro n o st
    simp [fireLog]
  · intro n o st
    simp [fireLog]
  · intro n1 n2 o1 o2 st m h1 h2
    subst h1
    calc opCount (log n2 o2 (log n1 o1 st)) o1.method
        = opCount (log n2 o2 (log n1 o1 st)) o2.method := by rw [h2]
      _ = opCount (log n1 o1 st) o2.method + 1 := opCount_log_self n2 o2 _
      _ = opCount (log n1 o1 st) o1.method + 1 := by rw [h2]
      _ = opCount st o1.method + 1 + 1 := by rw [opCount_log_self]
      _ = opCount st o1.method + 2 := by omega

/-- C7 witness: two distinct observations for `DELETE /items/:id` on the
empty store both count. -/
theorem c7_one_shot_latch_witness :
    obsC7a.method = "DELETE /items/:id"
    ∧ obsC7b.method = "DELETE /items/:id"
    ∧ opCount (log 1500001 obsC7b (log 1500000 obsC7a [])) "DELETE /items/:id" = 2 :=
  ⟨rfl, rfl,
   (c7_one_shot_latch.2.2.2 1500000 1500001 obsC7a obsC7b [] "DELETE /items/:id"
       rfl rfl).trans
     (by norm_num [opCount, opAggOf, alookup, emptyOp])⟩

/-- C10: after every `log` the operation's `namespaces` field is exactly
the summary of the current request's params, query and body (earlier
summaries for the same operation are overwritten, last write wins), and
the `/slamCounts` view is a permutation of the store's entries, so the
field is exposed alongside the aggregates. -/
theorem c10_namespaces_last_write :
    (∀ (nowTs : Int) (obs : Obs) (st : Store),
        (opAggOf (log nowTs obs st) obs.method).namespaces = some (nsOf obs))
    ∧ (∀ (n1 n2 : Int) (o1 o2 : Obs) (st : Store),
        o1.method = o2.method →
        (opAggOf (log n2 o2 (log n1 o1 st)) o2.method).namespaces = some (nsOf o2))
    ∧ (∀ st : Store, List.Perm (slamCountsView st) st) := by
  refine ⟨?_, ?_, slamCountsView_perm⟩
  · intro nowTs obs st
    rw [opAgg_log_self]
    rfl
  · intro n1 n2 o1 o2 st h
    rw [opAgg_log_self]
    rfl

/-- C10 witness: after two requests for `GET /search` the stored
summary is exactly that of the second request — the numeric string
`"42"` is typed `"number"`, the array is tagged `"array"`, `"true"`
coerces through `true` to a number, `"bob"` stays a string — and the
first request's query summary is gone. -/
theorem c10_namespaces_last_write_witness :
    obsC10a.method = obsC10b.method
    ∧ (opAggOf (log 1500001 obsC10b (log 1500000 obsC10a [])) "GET /search").namespaces
        = some ⟨[("id", ⟨"id", "number"⟩), ("tags", ⟨"tags", "array"⟩),
                ("flag", ⟨"flag", "number"⟩), ("name", ⟨"name", "string"⟩)], [], []⟩ :=
  ⟨rfl,
   (c10_namespaces_last_write.2.1 1500000 1500001 obsC10a obsC10b [] rfl).trans
     (by decide)⟩

/-- C3: the segment-sum bookkeeping.  (i) In every store reachable by
replaying observations against the empty store, each outcome's segment
counts sum to at most its lifetime count.  (ii) When a `log` call
evicts nothing from the touched outcome, it preserves the exact
equality `sum = count` store-wide.  (iii) Segments surviving eviction
keep their exact sub-aggregates.  (iv) Outcome and operation lifetime
counts never decrease across a `log` call — evicted history is not
subtracted. -/
theorem c3_segment_sum_invariant :
    (∀ evs : List (Int × Obs), SumLeInv (runLog evs))
    ∧ (∀ (nowTs : Int) (obs : Obs) (st : Store),
        SumEqInv st →
        (∀ kv ∈ segsUpdated obs st, ¬ kv.1 < tsToSegment nowTs none - 23) →
        SumEqInv (log nowTs obs st))
    ∧ (∀ (nowTs : Int) (obs : Obs) (st : Store) (k : Int),
        ¬ k < tsToSegment nowTs none - 23 →
        segAggOf (log nowTs obs st) obs.method obs.statusCode k
          = alookup (segsUpdated obs st) k)
    ∧ (∀ (nowTs : Int) (obs : Obs) (st : Store) (m : String) (sc : Nat),
        outCount st m sc ≤ outCount (log nowTs obs st) m sc
        ∧ opCount st m ≤ opCount (log nowTs obs st) m) := by
  refine ⟨sumLeInv_runLog, sumEqInv_log, ?_, ?_⟩
  · intro nowTs obs st k hk
    rw [segAgg_log_eq, if_neg hk]
  · intro nowTs obs st m sc
    exact ⟨outCount_log_mono nowTs obs st m sc, opCount_log_mono nowTs obs st m⟩

/-- C3 witness: one record on the empty store evicts nothing and leaves
the exact equality invariant intact. -/
theorem c3_segment_sum_invariant_witness :
    (∀ kv ∈ segsUpdated obsC3 [], ¬ kv.1 < tsToSegment 1500000 none - 23)
    ∧ SumEqInv (log 1500000 obsC3 []) :=
  ⟨by decide,
   c3_segment_sum_invariant.2.1 1500000 obsC3 [] (by simp [SumEqInv]) (by decide)⟩

/-- C2: eviction removes from the touched outcome's segment map exactly
the keys strictly below `currentSegment() - 23` (`RETENTION_SEGMENTS =
24`), and in the concrete scenario — an observation in segment S, then
a later observation for the same operation and outcome recorded when
the current segment is S + 25 — the map has lost segment S and contains
the fresh segment S + 25. -/
theorem c2_eviction_window :
    (∀ (nowTs : Int) (obs : Obs) (st : Store) (k : Int),
        segAggOf (log nowTs obs st) obs.method obs.statusCode k
          = if k < tsToSegment nowTs none - 23 then none
            else alookup (segsUpdated obs st) k)
    ∧ (∀ (m : String) (sc : Nat) (S : Int) (d1 d2 : ℚ),
        segAggOf
            (log (segmentToTs (S + 25)) (mkObsSeg m sc (S + 25) d2)
              (log (segmentToTs S) (mkObsSeg m sc S d1) []))
            m sc S = none
        ∧ segAggOf
            (log (segmentToTs (S + 25)) (mkObsSeg m sc (S + 25) d2)
              (log (segmentToTs S) (mkObsSeg m sc S d1) []))
            m sc (S + 25) = some ⟨1, d2⟩) := by
  constructor
  · exact segAgg_log_eq
  · intro m sc S d1 d2
    have hnow1 : tsToSegment (segmentToTs S) none = S := tsToSegment_none_segment S
    have hnow2 : tsToSegment (segmentToTs (S + 25)) none = S + 25 :=
      tsToSegment_none_segment (S + 25)
    have hst1lookup :
        segAggOf (log (segmentToTs S) (mkObsSeg m sc S d1) []) m sc (S + 25) = none := by
      have h := segAgg_log_eq (segmentToTs S) (mkObsSeg m sc S d1) [] (S + 25)
      rw [show (mkObsSeg m sc S d1).method = m from rfl,
          show (mkObsSeg m sc S d1).statusCode = sc from rfl, hnow1] at h
      rw [h, if_neg (by omega)]
      simp only [segsUpdated, show (mkObsSeg m sc S d1).method = m from rfl,
        show (mkObsSeg m sc S d1).statusCode = sc from rfl,
        show (mkObsSeg m sc S d1).timeSegment = S from rfl]
      rw [show (outAggOf ([] : Store) m sc).segments = [] from rfl]
      rw [show aset S (⟨(prevSeg ([] : Store) m sc S).count + 1,
            ((mkObsSeg m sc S d1).durationMs
              + (prevSeg ([] : Store) m sc S).avgDurationMs
                * ((prevSeg ([] : Store) m sc S).count : ℚ))
            / (((prevSeg ([] : Store) m sc S).count : ℚ) + 1)⟩ : SegAgg) []
          = [(S, ⟨(prevSeg ([] : Store) m sc S).count + 1,
              ((mkObsSeg m sc S d1).durationMs
                + (prevSeg ([] : Store) m sc S).avgDurationMs
                  * ((prevSeg ([] : Store) m sc S).count : ℚ))
              / (((prevSeg ([] : Store) m sc S).count : ℚ) + 1)⟩)] from rfl]
      rw [alookup, if_neg (by omega)]
      rfl
    constructor
    · have h := segAgg_log_eq (segmentToTs (S + 25)) (mkObsSeg m sc (S + 25) d2)
        (log (segmentToTs S) (mkObsSeg m sc S d1) []) S
      rw [show (mkObsSeg m sc (S + 25) d2).method = m from rfl,
          show (mkObsSeg m sc (S + 25) d2).statusCode = sc from rfl, hnow2] at h
      rw [h, if_pos (by omega)]
    · have h := segAgg_log_eq (segmentToTs (S + 25)) (mkObsSeg m sc (S + 25) d2)
        (log (segmentToTs S) (mkObsSeg m sc S d1) []) (S + 25)
      rw [show (mkObsSeg m sc (S + 25) d2).method = m from rfl,
          show (mkObsSeg m sc (S + 25) d2).statusCode = sc from rfl, hnow2] at h
      rw [h, if_neg (by omega)]
      simp only [segsUpdated, show (mkObsSeg m sc (S + 25) d2).method = m from rfl,
        show (mkObsSeg m sc (S + 25) d2).statusCode = sc from rfl,
        show (mkObsSeg m sc (S + 25) d2).timeSegment = S + 25 from rfl]
      rw [alookup_aset_self]
      have hprev : prevSeg (log (segmentToTs S) (mkObsSeg m sc S d1) []) m sc (S + 25)
          = ⟨0, 0⟩ := by
        rw [prevSeg, hst1lookup]
        rfl
      rw [hprev]
      norm_num [mkObsSeg]

end Slam
